import Mathlib

/- Batteries marks the `Rat` arithmetic operations `@[irreducible]`, which
blocks `decide`/`rfl` evaluation of the concrete playback runs below; this
development only ever evaluates them on closed terms, so restoring default
reducibility is safe. -/
set_option allowUnsafeReducibility true in
attribute [semireducible] Rat.add Rat.mul Rat.inv Rat.sub

/-!
Verification development for a browser drum machine (look-ahead step
sequencer plus per-voice drum synthesis engines).

The definitions below are a shallow embedding of the TypeScript sources:

* `Pattern`, `Track`, `StepData` embed `src/types/pattern.ts`.
* `Sequencer.*` embeds the `Sequencer` class: `start`, `stop`,
  `schedule`, `scheduleStep`, `nextStep`, `updatePattern`.
* `AudioEngine.triggerDrum` embeds the engine facade: it reads the audio
  clock itself (`context.currentTime`) and forwards `velocity / 127` to the
  synth's `trigger`.
* `HiHatSynth.*` embeds the hi-hat engine's choke-group bookkeeping
  (`activeChokeGroup` map, `voices` set, the per-voice `stop` closure and
  the cleanup timer path).

Numbers are modelled as `ℚ` (JS numbers used here are exact in the ranges
involved), JS `Map`/object literals as association lists, JS `Set` as a
list, and `Math.random()` as an oracle `Nat → ℚ` consumed one draw per
probability test, threaded by an explicit counter.  The wall clock is an
explicit parameter: a polling tick is modelled as happening at one clock
instant.  Fallible operations return `Option`; functions are total, which
mirrors the sources' catch-and-ignore error handling.
-/

/-- One slot of a track (`StepData` in `src/types/pattern.ts`).
`parameters` is the optional per-step override mapping. -/
structure StepData where
  active : Bool
  velocity : ℚ
  probability : ℚ
  microTiming : ℚ
  parameters : Option (List (String × ℚ))
deriving DecidableEq

/-- A track of a pattern (`Track` in `src/types/pattern.ts`). -/
structure Track where
  synthType : String
  volume : ℚ
  mute : Bool
  solo : Bool
  steps : List StepData
  synthParams : List (String × ℚ)
deriving DecidableEq

/-- A pattern (`Pattern` in `src/types/pattern.ts`); `steps` is the step
count (16 or 32), as in the source. -/
structure Pattern where
  bpm : ℚ
  swing : ℚ
  tracks : List Track
  steps : Nat
deriving DecidableEq

/-- First-match association-list lookup, the semantics of reading a key
from a JS object or `Map`. -/
def lookupAssoc (l : List (String × ℚ)) (k : String) : Option ℚ :=
  (l.find? (fun p => p.1 = k)).map (fun p => p.2)

/-- JS object spread `\x7b...a, ...b\x7d`: every key of `b` wins over `a`,
keys only in `a` keep their value.  Enumeration order of the result is
irrelevant to the engines, which only look keys up. -/
def jsMerge (a b : List (String × ℚ)) : List (String × ℚ) :=
  a.filter (fun p => lookupAssoc b p.1 = none) ++ b

theorem lookupAssoc_cons (p : String × ℚ) (l : List (String × ℚ)) (k : String) :
    lookupAssoc (p :: l) k = if p.1 = k then some p.2 else lookupAssoc l k := by
  unfold lookupAssoc
  rw [List.find?]
  by_cases hk : p.1 = k
  · rw [show (decide (p.1 = k)) = true by simp [hk], if_pos hk]
    rfl
  · rw [show (decide (p.1 = k)) = false by simp [hk], if_neg hk]

theorem lookupAssoc_append (l₁ l₂ : List (String × ℚ)) (k : String) :
    lookupAssoc (l₁ ++ l₂) k
      = (lookupAssoc l₁ k).orElse (fun _ => lookupAssoc l₂ k) := by
  unfold lookupAssoc
  rw [List.find?_append]
  cases l₁.find? (fun p => decide (p.1 = k)) with
  | none => simp
  | some q => simp

theorem lookupAssoc_filter_none (a b : List (String × ℚ)) (k : String)
    (h : lookupAssoc b k = none) :
    lookupAssoc (a.filter (fun p => lookupAssoc b p.1 = none)) k = lookupAssoc a k := by
  induction a with
  | nil => rfl
  | cons p a ih =>
    by_cases hp : lookupAssoc b p.1 = none
    · simp only [List.filter_cons]
      rw [if_pos (by simp [hp]), lookupAssoc_cons, lookupAssoc_cons, ih]
    · have hk : p.1 ≠ k := fun hpk => hp (hpk ▸ h)
      simp only [List.filter_cons]
      rw [if_neg (by simp [hp]), lookupAssoc_cons, if_neg hk, ih]

theorem lookupAssoc_filter_some (a b : List (String × ℚ)) (k : String)
    (h : lookupAssoc b k ≠ none) :
    lookupAssoc (a.filter (fun p => lookupAssoc b p.1 = none)) k = none := by
  induction a with
  | nil => rfl
  | cons p a ih =>
    by_cases hp : lookupAssoc b p.1 = none
    · have hk : p.1 ≠ k := fun hpk => h (hpk ▸ hp)
      simp only [List.filter_cons]
      rw [if_pos (by simp [hp]), lookupAssoc_cons, if_neg hk, ih]
    · simp only [List.filter_cons]
      rw [if_neg (by simp [hp]), ih]

theorem lookupAssoc_jsMerge (a b : List (String × ℚ)) (k : String) :
    lookupAssoc (jsMerge a b) k = (lookupAssoc b k).orElse (fun _ => lookupAssoc a k) := by
  unfold jsMerge
  rw [lookupAssoc_append]
  by_cases h : lookupAssoc b k = none
  · rw [lookupAssoc_filter_none a b k h, h]
    cases lookupAssoc a k with
    | none => rfl
    | some v => rfl
  · rw [lookupAssoc_filter_some a b k h]
    cases hb : lookupAssoc b k with
    | none => exact absurd hb h
    | some v => rfl

/-- The synth-type keys registered by `AudioEngine.initializeSynths`. -/
def knownSynthTypes : List String :=
  ["kick", "snare", "hihat", "clap", "rim", "tom", "perc1", "perc2"]

/-- A trigger call as received by a synth engine's `trigger`:
`AudioEngine.triggerDrum` reads the clock itself and normalizes
velocity by 127 before forwarding. -/
structure TriggerEvent where
  synthType : String
  time : ℚ
  velocity : ℚ
  params : List (String × ℚ)
deriving DecidableEq

/-- `AudioEngine.triggerDrum(synthType, velocity, params)`:  no-op if not
initialized or the synth type is unknown; otherwise calls
`synth.trigger(context.currentTime, velocity / 127, params)`.  `now` is the
clock reading at the moment of the call; note the scheduled step time is
not an argument — the source reads `this.context.currentTime`. -/
def AudioEngine.triggerDrum (initialized : Bool) (now : ℚ) (synthType : String)
    (velocity : ℚ) (params : List (String × ℚ)) : Option TriggerEvent :=
  if initialized = false then none
  else if knownSynthTypes.contains synthType = false then none
  else some ⟨synthType, now, velocity / 127, params⟩

/-- Default used when a step index is out of range; the source would fault
there (`track.steps\x5bstep\x5d.active` on `undefined`), which the spec
declares out of scope (malformed patterns are the constructor's burden). -/
def inactiveStep : StepData := ⟨false, 0, 1, 0, none⟩

/-- The body of `Sequencer.scheduleStep`'s per-track loop: the
inactive/mute/solo gates, the probability draw, velocity composition and
parameter merge, ending in `audioEngine.triggerDrum`.  `rand k` is the
`Math.random()` draw with counter `k`; the returned counter reflects
whether a draw was consumed. -/
def scheduleTrack (initialized : Bool) (hasSolo : Bool) (track : Track)
    (step : Nat) (now : ℚ) (rand : Nat → ℚ) (k : Nat) :
    Option TriggerEvent × Nat :=
  let stepData := (track.steps.get? step).getD inactiveStep
  if stepData.active = false then (none, k)
  else if track.mute then (none, k)
  else if hasSolo ∧ track.solo = false then (none, k)
  else if rand k > stepData.probability then (none, k + 1)
  else
    let velocity := stepData.velocity * track.volume
    let triggerParams := jsMerge track.synthParams (stepData.parameters.getD [])
    (AudioEngine.triggerDrum initialized now track.synthType velocity triggerParams, k + 1)

/-- The track loop of `Sequencer.scheduleStep`, in pattern order. -/
def scheduleTracks (initialized : Bool) (hasSolo : Bool) (tracks : List Track)
    (step : Nat) (now : ℚ) (rand : Nat → ℚ) (k : Nat) :
    List TriggerEvent × Nat :=
  match tracks with
  | [] => ([], k)
  | t :: ts =>
    match scheduleTrack initialized hasSolo t step now rand k with
    | (ev, k₁) =>
      match scheduleTracks initialized hasSolo ts step now rand k₁ with
      | (evs, k₂) => (ev.toList ++ evs, k₂)

/-- `Sequencer.scheduleStep(step, time)`: reads the solo flags once, then
runs the track loop.  The `time` parameter is only used for the UI
callback delay in the source; the audio dispatch uses the clock via
`triggerDrum`, so only `now` reaches the events. -/
def Sequencer.scheduleStep (initialized : Bool) (p : Pattern) (step : Nat)
    (now : ℚ) (rand : Nat → ℚ) (k : Nat) : List TriggerEvent × Nat :=
  let hasSolo := p.tracks.any (fun track => track.solo)
  scheduleTracks initialized hasSolo p.tracks step now rand k

/-- The `Sequencer` class's mutable fields.  `timerID` is the interval
handle (`window.setInterval` result), `onStepCallback` an opaque token for
the stored callback reference (only identity matters here). -/
structure Sequencer where
  isPlaying : Bool
  currentStep : Nat
  nextStepTime : ℚ
  timerID : Option Nat
  pattern : Option Pattern
  onStepCallback : Option Nat
deriving DecidableEq

/-- Field initializers of the `Sequencer` class. -/
def Sequencer.init : Sequencer :=
  ⟨false, 0, 0, none, none, none⟩

/-- `scheduleAheadTime = 0.1` seconds. -/
def scheduleAheadTime : ℚ := 1 / 10

/-- `lookahead = 25` ms, the polling interval, in seconds. -/
def lookaheadSeconds : ℚ := 1 / 40

/-- `Sequencer.nextStep()`: advance the accumulator by one sixteenth note,
adding the swing offset when the step just scheduled (`currentStep`) is
odd and swing is positive, then advance the cursor modulo the step count. -/
def Sequencer.nextStep (s : Sequencer) : Sequencer :=
  match s.pattern with
  | none => s
  | some p =>
    let secondsPerBeat := 60 / p.bpm
    let secondsPerStep := secondsPerBeat / 4
    let swingOffset :=
      if s.currentStep % 2 = 1 ∧ 0 < p.swing then secondsPerStep * p.swing * (1 / 2)
      else 0
    { s with
      nextStepTime := s.nextStepTime + secondsPerStep + swingOffset,
      currentStep := (s.currentStep + 1) % p.steps }

/-- The while loop of `Sequencer.schedule()`, with explicit fuel (the JS
loop terminates whenever `bpm > 0`; all uses below supply ample fuel and
the theorems hold for any fuel).  Returns the new sequencer state, the
dispatched trigger events in order, and the advanced draw counter. -/
def Sequencer.scheduleLoop (initialized : Bool) (now : ℚ) (rand : Nat → ℚ) :
    Nat → Sequencer → Nat → Sequencer × List TriggerEvent × Nat
  | 0, s, k => (s, [], k)
  | fuel + 1, s, k =>
    match s.pattern with
    | none => (s, [], k)
    | some p =>
      if s.nextStepTime < now + scheduleAheadTime then
        match Sequencer.scheduleStep initialized p s.currentStep now rand k with
        | (evs, k₁) =>
          match Sequencer.scheduleLoop initialized now rand fuel s.nextStep k₁ with
          | (s₂, evs₂, k₂) => (s₂, evs ++ evs₂, k₂)
      else (s, [], k)

/-- `Sequencer.schedule()`: bail out when no pattern or not playing, then
run the look-ahead while loop at the tick's clock reading `now`. -/
def Sequencer.schedule (initialized : Bool) (now : ℚ) (rand : Nat → ℚ)
    (fuel : Nat) (s : Sequencer) (k : Nat) : Sequencer × List TriggerEvent × Nat :=
  if s.pattern = none ∨ s.isPlaying = false then (s, [], k)
  else Sequencer.scheduleLoop initialized now rand fuel s k

/-- `Sequencer.stop()`: no-op if already stopped, otherwise clear the
playing flag, reset the cursor and clear the interval timer. -/
def Sequencer.stop (s : Sequencer) : Sequencer :=
  if s.isPlaying = false then s
  else { s with isPlaying := false, currentStep := 0, timerID := none }

/-- `Sequencer.updatePattern(pattern)`: hot-swap the pattern reference. -/
def Sequencer.updatePattern (s : Sequencer) (p : Pattern) : Sequencer :=
  { s with pattern := some p }

/-- The state-initialization phase of `Sequencer.start` (lines setting
`pattern`, `onStepCallback`, `isPlaying`, `currentStep`, `nextStepTime`),
with `now` the clock reading (`audioEngine.getCurrentTime()`). -/
def Sequencer.startInit (s : Sequencer) (p : Pattern) (cb : Option Nat)
    (now : ℚ) : Sequencer :=
  { s with
    pattern := some p, onStepCallback := cb, isPlaying := true,
    currentStep := 0, nextStepTime := now }

/-- `Sequencer.start(pattern, onStep)`: returns unchanged if already
playing; logs and returns unchanged if the audio engine is not
initialized; otherwise initializes the state, runs `schedule()` once
synchronously, and installs the interval timer `tid`.  The returned list
holds the trigger events dispatched by the inner `schedule()` call. -/
def Sequencer.start (initialized : Bool) (s : Sequencer) (p : Pattern)
    (cb : Option Nat) (now : ℚ) (rand : Nat → ℚ) (fuel : Nat) (tid : Nat) :
    Sequencer × List TriggerEvent :=
  if s.isPlaying then (s, [])
  else if initialized = false then (s, [])
  else
    let s₁ := s.startInit p cb now
    let r := Sequencer.schedule initialized now rand fuel s₁ 0
    ({ r.1 with timerID := some tid }, r.2.1)

/-- `getIsPlaying()`. -/
def Sequencer.getIsPlaying (s : Sequencer) : Bool := s.isPlaying

/-- A playback run: fold `schedule` over the clock readings of successive
polling ticks, concatenating dispatched events and threading the draw
counter. -/
def Sequencer.runTicks (initialized : Bool) (rand : Nat → ℚ) (fuel : Nat) :
    List ℚ → Sequencer → Nat → Sequencer × List TriggerEvent × Nat
  | [], s, k => (s, [], k)
  | now :: ts, s, k =>
    match Sequencer.schedule initialized now rand fuel s k with
    | (s₁, evs, k₁) =>
      match Sequencer.runTicks initialized rand fuel ts s₁ k₁ with
      | (s₂, evs₂, k₂) => (s₂, evs ++ evs₂, k₂)

/-- Kick step row for the 4-on-the-floor scenario: active on steps 0, 4,
8, 12 at velocity 100, probability 1, all else inactive. -/
def kickSteps : List StepData :=
  (List.range 16).map (fun i =>
    if i % 4 = 0 then ⟨true, 100, 1, 0, none⟩ else ⟨false, 100, 1, 0, none⟩)

/-- The kick track of the scenario: volume 1, no mute/solo. -/
def kickTrack : Track := ⟨"kick", 1, false, false, kickSteps, []⟩

/-- The 4-on-the-floor scenario pattern: bpm 120, swing 0, 16 steps. -/
def fourOnFloor : Pattern := ⟨120, 0, [kickTrack], 16⟩

/-- Clock readings of `count` successive polling ticks starting with tick
number `start`: the interval fires every `lookahead` = 25 ms. -/
def tickTimesFrom : Nat → Nat → List ℚ
  | _, 0 => []
  | start, count + 1 =>
    (start : ℚ) * lookaheadSeconds :: tickTimesFrom (start + 1) count

/-- Clock readings of the polling ticks for the scenario run: the
synchronous `schedule()` inside `start` at clock 0, then the interval
firing every 25 ms, up to 1.9 s (enough for all 16 steps and no more). -/
def tickTimes : List ℚ := tickTimesFrom 0 77

/-- The trigger events the engine receives over the scenario run, started
at clock time 0 (draws irrelevant at probability 1; the oracle returns 0). -/
def fourOnFloorRun : List TriggerEvent :=
  (Sequencer.runTicks true (fun _ => 0) 40 tickTimes
    (Sequencer.init.startInit fourOnFloor none 0) 0).2.1


/-- Iterate `Sequencer.nextStep` (the accumulator advance) `n` times. -/
def Sequencer.iterNextStep (s : Sequencer) : Nat → Sequencer
  | 0 => s
  | n + 1 => (Sequencer.iterNextStep s n).nextStep

/-- The accumulator value (`nextStepTime`) with which the `n`-th scheduled
step of a run of pattern `p` started at clock `start` is scheduled: the
value after `n` `nextStep` advances from the post-`start` state. -/
def stepTimeFrom (p : Pattern) (start : ℚ) (n : Nat) : ℚ :=
  (Sequencer.iterNextStep (Sequencer.init.startInit p none start) n).nextStepTime

/-- The swing-correctness scenario pattern of the spec: bpm 120,
swing 0.6, 16 steps. -/
def swingPattern : Pattern := ⟨120, 3/5, [kickTrack], 16⟩

/-- An active synthesis voice as tracked by an engine (`DrumVoice` in
`BaseDrumSynth.ts`): `id` stands for the object identity of the voice,
`group` is the `chokeGroup` value captured by the voice's `stop` closure
at trigger time. -/
structure DrumVoice where
  id : Nat
  group : ℚ
  startTime : ℚ
  endTime : ℚ
deriving DecidableEq

/-- An observed `voice.stop(stopTime)` dispatch: which voice, the choke
group captured in its closure, and the stop time handed to its nodes. -/
structure StopEvent where
  voiceId : Nat
  group : ℚ
  time : ℚ
deriving DecidableEq

/-- JS `Map.get` on the `activeChokeGroup` map (association list). -/
def chokeLookup (m : List (ℚ × DrumVoice)) (g : ℚ) : Option DrumVoice :=
  (m.find? (fun e => e.1 = g)).map (fun e => e.2)

/-- JS `Map.delete`. -/
def chokeErase (m : List (ℚ × DrumVoice)) (g : ℚ) : List (ℚ × DrumVoice) :=
  m.filter (fun e => e.1 ≠ g)

/-- JS `Map.set` (replace-or-insert). -/
def chokeSet (m : List (ℚ × DrumVoice)) (g : ℚ) (v : DrumVoice) :
    List (ℚ × DrumVoice) :=
  chokeErase m g ++ [(g, v)]

/-- The `HiHatSynth` instance state: the engine's `voices` set, the
`activeChokeGroup` map, the persistent parameter map and an id counter
standing for object allocation. -/
structure HiHatState where
  voices : List DrumVoice
  activeChokeGroup : List (ℚ × DrumVoice)
  parameters : List (String × ℚ)
  nextId : Nat
deriving DecidableEq

/-- `HiHatSynth.initializeDefaultParameters`. -/
def hihatDefaults : List (String × ℚ) :=
  [("pitch", 8000), ("decay", 1/20), ("tone", 7/10), ("color", 8000),
   ("metallic", 3/5), ("chokeGroup", 0)]

/-- A freshly constructed `HiHatSynth`. -/
def HiHatSynth.initState : HiHatState := ⟨[], [], hihatDefaults, 0⟩

/-- `BaseDrumSynth.getParameter(param, defaultValue)`. -/
def getParameter (params : List (String × ℚ)) (name : String) (deflt : ℚ) : ℚ :=
  (lookupAssoc params name).getD deflt

/-- The hi-hat voice's `stop(stopTime)` closure, as it acts on the engine
state: node stops are wrapped in try/catch (so a double stop is a no-op,
which is why this function is total), all nodes are disconnected, the
voice is removed from `voices`, and the choke-map entry for the captured
group is removed when it still points to this voice. -/
def HiHatVoice.stop (s : HiHatState) (v : DrumVoice) : HiHatState :=
  { s with
    voices := s.voices.filter (fun w => w ≠ v),
    activeChokeGroup :=
      if chokeLookup s.activeChokeGroup v.group = some v then
        chokeErase s.activeChokeGroup v.group
      else s.activeChokeGroup }

/-- The choke group a hi-hat trigger resolves:
`(params as any)?.chokeGroup ?? this.getParameter('chokeGroup', 0)`. -/
def HiHatSynth.resolveChokeGroup (s : HiHatState) (params : List (String × ℚ)) : ℚ :=
  (lookupAssoc params "chokeGroup").getD (getParameter s.parameters "chokeGroup" 0)

/-- The decay a hi-hat trigger resolves:
`params?.decay ?? this.getParameter('decay', 0.05)`. -/
def HiHatSynth.resolveDecay (s : HiHatState) (params : List (String × ℚ)) : ℚ :=
  (lookupAssoc params "decay").getD (getParameter s.parameters "decay" (1/20))

/-- `HiHatSynth.trigger(time, velocity, params)`: resolve `decay` and
`chokeGroup` (per-trigger override wins over the persistent map), then —
if the choke group already has an active voice — call that voice's
`stop(time)` and delete the map entry, and finally build the new voice
(noise source stopped at `time + decay + 0.05`), add it to `voices` and
make it the group's active voice.  The returned list holds the stop
dispatches issued for choked voices, in order, all before the new voice
is registered.  `velocity` only shapes gain nodes, not the tracked state. -/
def HiHatSynth.trigger (s : HiHatState) (time velocity : ℚ)
    (params : List (String × ℚ)) : HiHatState × List StopEvent :=
  let decay := HiHatSynth.resolveDecay s params
  let chokeGroup := HiHatSynth.resolveChokeGroup s params
  match chokeLookup s.activeChokeGroup chokeGroup with
  | some previousVoice =>
    let s₁ := HiHatVoice.stop s previousVoice
    let s₂ := { s₁ with activeChokeGroup := chokeErase s₁.activeChokeGroup chokeGroup }
    let endTime := time + decay + 1/20
    let voice : DrumVoice := ⟨s₂.nextId, chokeGroup, time, endTime⟩
    ({ s₂ with
        voices := s₂.voices ++ [voice],
        activeChokeGroup := chokeSet s₂.activeChokeGroup chokeGroup voice,
        nextId := s₂.nextId + 1 },
     [⟨previousVoice.id, previousVoice.group, time⟩])
  | none =>
    let endTime := time + decay + 1/20
    let voice : DrumVoice := ⟨s.nextId, chokeGroup, time, endTime⟩
    ({ s with
        voices := s.voices ++ [voice],
        activeChokeGroup := chokeSet s.activeChokeGroup chokeGroup voice,
        nextId := s.nextId + 1 },
     [])

/-- The auto-cleanup timer body (`setTimeout` in `trigger`): when it
fires at clock `now`, if the voice is still tracked, call its stop. -/
def HiHatSynth.cleanup (s : HiHatState) (v : DrumVoice) : HiHatState :=
  if v ∈ s.voices then HiHatVoice.stop s v else s

/-- The choke-group bookkeeping invariant of a `HiHatSynth` instance:
every choke-map entry maps a group to a tracked voice of that group with
a previously allocated id, and every tracked voice is its own group's
active entry. -/
def HiHatInv (s : HiHatState) : Prop :=
  (∀ e ∈ s.activeChokeGroup, e.2.group = e.1 ∧ e.2 ∈ s.voices) ∧
  (∀ v ∈ s.voices, chokeLookup s.activeChokeGroup v.group = some v) ∧
  (∀ v ∈ s.voices, v.id < s.nextId)

instance (s : HiHatState) : Decidable (HiHatInv s) := by
  unfold HiHatInv
  exact inferInstance

/-- The kick voice `stop` closure acting on the engine's `voices` set
(`KickSynth.trigger`): node stops are try/catch-guarded, then the voice
is deleted from the set.  Total for the same reason as the hi-hat stop. -/
def KickSynth.voiceStop (voices : List DrumVoice) (v : DrumVoice) : List DrumVoice :=
  voices.filter (fun w => w ≠ v)

theorem chokeLookup_cons (e : ℚ × DrumVoice) (m : List (ℚ × DrumVoice)) (g : ℚ) :
    chokeLookup (e :: m) g = if e.1 = g then some e.2 else chokeLookup m g := by
  unfold chokeLookup
  rw [List.find?]
  by_cases he : e.1 = g
  · rw [show (decide (e.1 = g)) = true by simp [he], if_pos he]
    rfl
  · rw [show (decide (e.1 = g)) = false by simp [he], if_neg he]

theorem chokeLookup_erase_self (m : List (ℚ × DrumVoice)) (g : ℚ) :
    chokeLookup (chokeErase m g) g = none := by
  induction m with
  | nil => rfl
  | cons e m ih =>
    unfold chokeErase at ih ⊢
    by_cases he : e.1 = g
    · rw [List.filter_cons, if_neg (by simp [he])]
      exact ih
    · rw [List.filter_cons, if_pos (by simp [he]), chokeLookup_cons, if_neg he]
      exact ih

theorem chokeLookup_erase_other (m : List (ℚ × DrumVoice)) (g g' : ℚ) (h : g' ≠ g) :
    chokeLookup (chokeErase m g) g' = chokeLookup m g' := by
  induction m with
  | nil => rfl
  | cons e m ih =>
    unfold chokeErase at ih ⊢
    by_cases he : e.1 = g
    · have hne : e.1 ≠ g' := fun hh => h (hh ▸ he ▸ rfl)
      rw [List.filter_cons, if_neg (by simp [he]), chokeLookup_cons, if_neg hne, ih]
    · rw [List.filter_cons, if_pos (by simp [he]), chokeLookup_cons, chokeLookup_cons, ih]

theorem chokeLookup_append (m₁ m₂ : List (ℚ × DrumVoice)) (g : ℚ) :
    chokeLookup (m₁ ++ m₂) g = (chokeLookup m₁ g).orElse (fun _ => chokeLookup m₂ g) := by
  unfold chokeLookup
  rw [List.find?_append]
  cases m₁.find? (fun e => decide (e.1 = g)) with
  | none => simp
  | some e => simp

theorem chokeLookup_set_self (m : List (ℚ × DrumVoice)) (g : ℚ) (v : DrumVoice) :
    chokeLookup (chokeSet m g v) g = some v := by
  unfold chokeSet
  rw [chokeLookup_append, chokeLookup_erase_self]
  rw [chokeLookup_cons, if_pos rfl]
  rfl

theorem chokeLookup_set_other (m : List (ℚ × DrumVoice)) (g g' : ℚ) (v : DrumVoice)
    (h : g' ≠ g) :
    chokeLookup (chokeSet m g v) g' = chokeLookup m g' := by
  unfold chokeSet
  rw [chokeLookup_append, chokeLookup_erase_other m g g' h]
  have h2 : chokeLookup [(g, v)] g' = none := by
    rw [chokeLookup_cons, if_neg (fun hh => h hh.symm)]
    rfl
  rw [h2]
  cases chokeLookup m g' with
  | none => rfl
  | some w => rfl

theorem chokeLookup_mem (m : List (ℚ × DrumVoice)) (g : ℚ) (v : DrumVoice)
    (h : chokeLookup m g = some v) : (g, v) ∈ m := by
  unfold chokeLookup at h
  cases hf : m.find? (fun e => decide (e.1 = g)) with
  | none => rw [hf] at h; simp at h
  | some e =>
    rw [hf] at h
    simp at h
    have hmem := List.mem_of_find?_eq_some hf
    have hkey := List.find?_some hf
    simp only [decide_eq_true_eq] at hkey
    have : e = (g, v) := by
      cases e
      simp only [Prod.mk.injEq]
      exact ⟨hkey, h⟩
    exact this ▸ hmem

theorem mem_chokeErase (m : List (ℚ × DrumVoice)) (g : ℚ) (e : ℚ × DrumVoice) :
    e ∈ chokeErase m g ↔ e ∈ m ∧ e.1 ≠ g := by
  unfold chokeErase
  rw [List.mem_filter]
  simp

theorem mem_chokeSet (m : List (ℚ × DrumVoice)) (g : ℚ) (v : DrumVoice)
    (e : ℚ × DrumVoice) :
    e ∈ chokeSet m g v ↔ (e ∈ m ∧ e.1 ≠ g) ∨ e = (g, v) := by
  unfold chokeSet
  rw [List.mem_append, mem_chokeErase]
  simp

theorem HiHatSynth.trigger_some (s : HiHatState) (time velocity : ℚ)
    (params : List (String × ℚ)) (prev : DrumVoice)
    (hc : chokeLookup s.activeChokeGroup (HiHatSynth.resolveChokeGroup s params) = some prev) :
    HiHatSynth.trigger s time velocity params =
      (let g := HiHatSynth.resolveChokeGroup s params
       let s₁ := HiHatVoice.stop s prev
       let s₂ : HiHatState := { s₁ with activeChokeGroup := chokeErase s₁.activeChokeGroup g }
       let voice : DrumVoice := ⟨s₂.nextId, g, time, time + HiHatSynth.resolveDecay s params + 1/20⟩
       ({ s₂ with
           voices := s₂.voices ++ [voice],
           activeChokeGroup := chokeSet s₂.activeChokeGroup g voice,
           nextId := s₂.nextId + 1 },
        [⟨prev.id, prev.group, time⟩])) := by
  simp only [HiHatSynth.trigger]
  rw [hc]

theorem HiHatSynth.trigger_none (s : HiHatState) (time velocity : ℚ)
    (params : List (String × ℚ))
    (hc : chokeLookup s.activeChokeGroup (HiHatSynth.resolveChokeGroup s params) = none) :
    HiHatSynth.trigger s time velocity params =
      (let g := HiHatSynth.resolveChokeGroup s params
       let voice : DrumVoice := ⟨s.nextId, g, time, time + HiHatSynth.resolveDecay s params + 1/20⟩
       ({ s with
           voices := s.voices ++ [voice],
           activeChokeGroup := chokeSet s.activeChokeGroup g voice,
           nextId := s.nextId + 1 },
        ([] : List StopEvent))) := by
  simp only [HiHatSynth.trigger]
  rw [hc]

theorem HiHatInv_initState : HiHatInv HiHatSynth.initState := by
  refine ⟨?_, ?_, ?_⟩ <;> intro x hx <;> simp [HiHatSynth.initState] at hx

theorem HiHatInv_trigger (s : HiHatState) (h : HiHatInv s) (time velocity : ℚ)
    (params : List (String × ℚ)) :
    HiHatInv (HiHatSynth.trigger s time velocity params).1 := by
  obtain ⟨hMap, hVoice, hId⟩ := h
  cases hc : chokeLookup s.activeChokeGroup (HiHatSynth.resolveChokeGroup s params) with
  | none =>
    rw [HiHatSynth.trigger_none s time velocity params hc]
    refine ⟨?_, ?_, ?_⟩
    · intro e he
      rcases (mem_chokeSet _ _ _ _).mp he with ⟨hem, hne⟩ | heq
      · exact ⟨(hMap e hem).1, List.mem_append_left _ (hMap e hem).2⟩
      · subst heq
        exact ⟨rfl, List.mem_append_right _ (List.mem_singleton.mpr rfl)⟩
    · intro v hv
      rcases List.mem_append.mp hv with hv₁ | hv₂
      · have hvg : v.group ≠ HiHatSynth.resolveChokeGroup s params := by
          intro hgg
          rw [← hgg] at hc
          rw [hVoice v hv₁] at hc
          exact Option.noConfusion hc
        rw [chokeLookup_set_other _ _ _ _ hvg]
        exact hVoice v hv₁
      · rw [List.mem_singleton.mp hv₂]
        exact chokeLookup_set_self _ _ _
    · intro v hv
      rcases List.mem_append.mp hv with hv₁ | hv₂
      · exact Nat.lt_succ_of_lt (hId v hv₁)
      · rw [List.mem_singleton.mp hv₂]
        exact Nat.lt_succ_self _
  | some prev =>
    have hprevMem : (HiHatSynth.resolveChokeGroup s params, prev) ∈ s.activeChokeGroup :=
      chokeLookup_mem _ _ _ hc
    have hprevGroup : prev.group = HiHatSynth.resolveChokeGroup s params :=
      (hMap _ hprevMem).1
    have hcond : chokeLookup s.activeChokeGroup prev.group = some prev := by
      rw [hprevGroup]; exact hc
    rw [HiHatSynth.trigger_some s time velocity params prev hc]
    simp only [HiHatVoice.stop, hprevGroup, hc, eq_self_iff_true, if_true]
    refine ⟨?_, ?_, ?_⟩
    · intro e he
      rcases (mem_chokeSet _ _ _ _).mp he with ⟨hem, hne⟩ | heq
      · have hem₂ := ((mem_chokeErase _ _ _).mp ((mem_chokeErase _ _ _).mp hem).1).1
        have hprop := hMap e hem₂
        refine ⟨hprop.1, List.mem_append_left _ (List.mem_filter.mpr ⟨hprop.2, ?_⟩)⟩
        simp only [decide_eq_true_eq]
        intro hep
        exact hne (by rw [← hprop.1, hep, hprevGroup])
      · subst heq
        exact ⟨rfl, List.mem_append_right _ (List.mem_singleton.mpr rfl)⟩
    · intro v hv
      rcases List.mem_append.mp hv with hv₁ | hv₂
      · have hvmem := (List.mem_filter.mp hv₁).1
        have hvne : v ≠ prev := by
          have := (List.mem_filter.mp hv₁).2
          simp only [decide_eq_true_eq] at this
          exact this
        have hvg : v.group ≠ HiHatSynth.resolveChokeGroup s params := by
          intro hgg
          rw [← hgg] at hc
          rw [hVoice v hvmem] at hc
          exact hvne (Option.some.inj hc)
        rw [chokeLookup_set_other _ _ _ _ hvg,
            chokeLookup_erase_other _ _ _ hvg, chokeLookup_erase_other _ _ _ hvg]
        exact hVoice v hvmem
      · rw [List.mem_singleton.mp hv₂]
        exact chokeLookup_set_self _ _ _
    · intro v hv
      rcases List.mem_append.mp hv with hv₁ | hv₂
      · exact Nat.lt_succ_of_lt (hId v (List.mem_filter.mp hv₁).1)
      · rw [List.mem_singleton.mp hv₂]
        exact Nat.lt_succ_self _

theorem HiHatInv_cleanup (s : HiHatState) (h : HiHatInv s) (v : DrumVoice) :
    HiHatInv (HiHatSynth.cleanup s v) := by
  obtain ⟨hMap, hVoice, hId⟩ := h
  unfold HiHatSynth.cleanup
  by_cases hv : v ∈ s.voices
  · rw [if_pos hv]
    have hcond : chokeLookup s.activeChokeGroup v.group = some v := hVoice v hv
    simp only [HiHatVoice.stop, if_pos hcond]
    refine ⟨?_, ?_, ?_⟩
    · intro e he
      have hem := ((mem_chokeErase _ _ _).mp he).1
      have hne := ((mem_chokeErase _ _ _).mp he).2
      have hprop := hMap e hem
      refine ⟨hprop.1, List.mem_filter.mpr ⟨hprop.2, ?_⟩⟩
      simp only [decide_eq_true_eq]
      intro hev
      exact hne (by rw [← hprop.1, hev])
    · intro w hw
      have hwmem := (List.mem_filter.mp hw).1
      have hwne : w ≠ v := by
        have := (List.mem_filter.mp hw).2
        simp only [decide_eq_true_eq] at this
        exact this
      have hwg : w.group ≠ v.group := by
        intro hgg
        have h1 := hVoice w hwmem
        rw [hgg, hcond] at h1
        exact hwne (Option.some.inj h1).symm
      rw [chokeLookup_erase_other _ _ _ hwg]
      exact hVoice w hwmem
    · intro w hw
      exact hId w (List.mem_filter.mp hw).1
  · rw [if_neg hv]
    exact ⟨hMap, hVoice, hId⟩

/-- C3: for every hi-hat trigger in choke group `g` (on a state satisfying
the engine's bookkeeping invariant): any still-active prior voice of group
`g` is stopped at the new trigger time, with its stop dispatched before
the new voice (whose start time is the trigger time) is registered; after
the trigger each choke group has at most one active voice; and no stop is
ever dispatched to a voice of a different choke group. -/
theorem hihat_choke_group_exclusivity (s : HiHatState) (time velocity : ℚ)
    (params : List (String × ℚ)) (hInv : HiHatInv s) :
    (∀ ev ∈ (HiHatSynth.trigger s time velocity params).2,
        ev.group = HiHatSynth.resolveChokeGroup s params ∧ ev.time = time) ∧
    (∀ v, chokeLookup s.activeChokeGroup (HiHatSynth.resolveChokeGroup s params) = some v →
        (HiHatSynth.trigger s time velocity params).2 = [⟨v.id, v.group, time⟩] ∧
        v ∉ (HiHatSynth.trigger s time velocity params).1.voices) ∧
    (∃ nv ∈ (HiHatSynth.trigger s time velocity params).1.voices,
        nv.group = HiHatSynth.resolveChokeGroup s params ∧ nv.startTime = time) ∧
    (∀ v w, v ∈ (HiHatSynth.trigger s time velocity params).1.voices →
        w ∈ (HiHatSynth.trigger s time velocity params).1.voices →
        v.group = w.group → v = w) := by
  obtain ⟨hMap, hVoice, hId⟩ := hInv
  cases hc : chokeLookup s.activeChokeGroup (HiHatSynth.resolveChokeGroup s params) with
  | none =>
    rw [HiHatSynth.trigger_none s time velocity params hc]
    refine ⟨?_, ?_, ?_, ?_⟩
    · intro ev hev
      exact absurd hev (List.not_mem_nil ev)
    · intro v hv
      exact Option.noConfusion hv
    · refine ⟨⟨s.nextId, HiHatSynth.resolveChokeGroup s params, time,
        time + HiHatSynth.resolveDecay s params + 1/20⟩, ?_, rfl, rfl⟩
      exact List.mem_append_right _ (List.mem_singleton.mpr rfl)
    · intro v w hv hw hgvw
      rcases List.mem_append.mp hv with hv₁ | hv₂ <;>
        rcases List.mem_append.mp hw with hw₁ | hw₂
      · have h1 := hVoice v hv₁
        have h2 := hVoice w hw₁
        rw [hgvw, h2] at h1
        exact (Option.some.inj h1).symm
      · exfalso
        have hvg : v.group = HiHatSynth.resolveChokeGroup s params := by
          rw [hgvw, List.mem_singleton.mp hw₂]
        have h1 := hVoice v hv₁
        rw [hvg, hc] at h1
        exact Option.noConfusion h1
      · exfalso
        have hwg : w.group = HiHatSynth.resolveChokeGroup s params := by
          rw [← hgvw, List.mem_singleton.mp hv₂]
        have h1 := hVoice w hw₁
        rw [hwg, hc] at h1
        exact Option.noConfusion h1
      · rw [List.mem_singleton.mp hv₂, List.mem_singleton.mp hw₂]
  | some prev =>
    have hprevMem : (HiHatSynth.resolveChokeGroup s params, prev) ∈ s.activeChokeGroup :=
      chokeLookup_mem _ _ _ hc
    have hprevGroup : prev.group = HiHatSynth.resolveChokeGroup s params :=
      (hMap _ hprevMem).1
    have hprevVoices : prev ∈ s.voices := (hMap _ hprevMem).2
    rw [HiHatSynth.trigger_some s time velocity params prev hc]
    simp only [HiHatVoice.stop, hprevGroup, hc, eq_self_iff_true, if_true]
    refine ⟨?_, ?_, ?_, ?_⟩
    · intro ev hev
      rw [List.mem_singleton.mp hev]
      exact ⟨rfl, rfl⟩
    · intro v hv
      have hvprev : v = prev := (Option.some.inj hv).symm
      subst hvprev
      constructor
      · rw [hprevGroup]
      · intro hmem
        rcases List.mem_append.mp hmem with h₁ | h₂
        · have := (List.mem_filter.mp h₁).2
          simp at this
        · have hid := hId v hprevVoices
          have : v.id = s.nextId := congrArg DrumVoice.id (List.mem_singleton.mp h₂)
          omega
    · refine ⟨⟨s.nextId, HiHatSynth.resolveChokeGroup s params, time,
        time + HiHatSynth.resolveDecay s params + 1/20⟩, ?_, rfl, rfl⟩
      exact List.mem_append_right _ (List.mem_singleton.mpr rfl)
    · intro v w hv hw hgvw
      rcases List.mem_append.mp hv with hv₁ | hv₂ <;>
        rcases List.mem_append.mp hw with hw₁ | hw₂
      · have h1 := hVoice v (List.mem_filter.mp hv₁).1
        have h2 := hVoice w (List.mem_filter.mp hw₁).1
        rw [hgvw, h2] at h1
        exact (Option.some.inj h1).symm
      · exfalso
        have hvg : v.group = HiHatSynth.resolveChokeGroup s params := by
          rw [hgvw, List.mem_singleton.mp hw₂]
        have hvne : v ≠ prev := by
          have := (List.mem_filter.mp hv₁).2
          simp only [decide_eq_true_eq] at this
          exact this
        have h1 := hVoice v (List.mem_filter.mp hv₁).1
        rw [hvg, hc] at h1
        exact hvne (Option.some.inj h1).symm
      · exfalso
        have hwg : w.group = HiHatSynth.resolveChokeGroup s params := by
          rw [← hgvw, List.mem_singleton.mp hv₂]
        have hwne : w ≠ prev := by
          have := (List.mem_filter.mp hw₁).2
          simp only [decide_eq_true_eq] at this
          exact this
        have h1 := hVoice w (List.mem_filter.mp hw₁).1
        rw [hwg, hc] at h1
        exact hwne (Option.some.inj h1).symm
      · rw [List.mem_singleton.mp hv₂, List.mem_singleton.mp hw₂]

theorem scheduleTrack_some (initialized hasSolo : Bool) (track : Track)
    (step : Nat) (now : ℚ) (rand : Nat → ℚ) (k : Nat) (ev : TriggerEvent)
    (h : (scheduleTrack initialized hasSolo track step now rand k).1 = some ev) :
    ev = ⟨track.synthType, now,
          (((track.steps.get? step).getD inactiveStep).velocity * track.volume) / 127,
          jsMerge track.synthParams
            ((((track.steps.get? step).getD inactiveStep).parameters).getD [])⟩ := by
  unfold scheduleTrack AudioEngine.triggerDrum at h
  simp only [apply_ite Prod.fst] at h
  split at h
  · exact Option.noConfusion h
  · split at h
    · exact Option.noConfusion h
    · split at h
      · exact Option.noConfusion h
      · split at h
        · exact Option.noConfusion h
        · split at h
          · exact Option.noConfusion h
          · split at h
            · exact Option.noConfusion h
            · exact (Option.some.inj h).symm

theorem jsMerge_nil (a : List (String × ℚ)) : jsMerge a [] = a := by
  unfold jsMerge
  rw [List.append_nil]
  have hnone : ∀ p : String × ℚ, lookupAssoc [] p.1 = none := fun p => rfl
  induction a with
  | nil => rfl
  | cons p a ih =>
    rw [List.filter_cons, if_pos (by simp [hnone p]), ih]

theorem nextStep_frame (s : Sequencer) :
    (Sequencer.nextStep s).isPlaying = s.isPlaying ∧
    (Sequencer.nextStep s).timerID = s.timerID ∧
    (Sequencer.nextStep s).pattern = s.pattern ∧
    (Sequencer.nextStep s).onStepCallback = s.onStepCallback := by
  obtain ⟨a, b, c, d, e, f⟩ := s
  cases e <;> exact ⟨rfl, rfl, rfl, rfl⟩

theorem scheduleLoop_frame (initialized : Bool) (now : ℚ) (rand : Nat → ℚ)
    (fuel : Nat) :
    ∀ (s : Sequencer) (k : Nat),
      (Sequencer.scheduleLoop initialized now rand fuel s k).1.isPlaying = s.isPlaying ∧
      (Sequencer.scheduleLoop initialized now rand fuel s k).1.timerID = s.timerID ∧
      (Sequencer.scheduleLoop initialized now rand fuel s k).1.pattern = s.pattern ∧
      (Sequencer.scheduleLoop initialized now rand fuel s k).1.onStepCallback
        = s.onStepCallback := by
  induction fuel with
  | zero => intro s k; exact ⟨rfl, rfl, rfl, rfl⟩
  | succ fuel ih =>
    intro s k
    rw [Sequencer.scheduleLoop]
    cases hp : s.pattern with
    | none => exact ⟨rfl, rfl, hp, rfl⟩
    | some p =>
      dsimp only
      by_cases hlt : s.nextStepTime < now + scheduleAheadTime
      · rw [if_pos hlt]
        rcases hss : Sequencer.scheduleStep initialized p s.currentStep now rand k
          with ⟨evs, k₁⟩
        rcases hsl : Sequencer.scheduleLoop initialized now rand fuel s.nextStep k₁
          with ⟨s₂, evs₂, k₂⟩
        have hrec := ih s.nextStep k₁
        rw [hsl] at hrec
        have hns := nextStep_frame s
        refine ⟨?_, ?_, ?_, ?_⟩
        · exact hrec.1.trans hns.1
        · exact hrec.2.1.trans hns.2.1
        · exact (hrec.2.2.1.trans hns.2.2.1).trans hp
        · exact hrec.2.2.2.trans hns.2.2.2
      · rw [if_neg hlt]
        exact ⟨rfl, rfl, hp, rfl⟩

theorem schedule_frame (initialized : Bool) (now : ℚ) (rand : Nat → ℚ)
    (fuel : Nat) (s : Sequencer) (k : Nat) :
    (Sequencer.schedule initialized now rand fuel s k).1.isPlaying = s.isPlaying ∧
    (Sequencer.schedule initialized now rand fuel s k).1.timerID = s.timerID ∧
    (Sequencer.schedule initialized now rand fuel s k).1.pattern = s.pattern ∧
    (Sequencer.schedule initialized now rand fuel s k).1.onStepCallback
      = s.onStepCallback := by
  unfold Sequencer.schedule
  by_cases hg : s.pattern = none ∨ s.isPlaying = false
  · rw [if_pos hg]
    exact ⟨rfl, rfl, rfl, rfl⟩
  · rw [if_neg hg]
    exact scheduleLoop_frame initialized now rand fuel s k

set_option maxRecDepth 40000 in
/-- C1: evaluation of the scheduler on the spec's 4-on-the-floor scenario
(bpm 120, 16 steps, swing 0, kick on steps 0/4/8/12 at velocity 100,
probability 1, polling every 25 ms from clock 0).  The run does dispatch
exactly 4 kick triggers, but `AudioEngine.triggerDrum` hands the synth
`context.currentTime` — the polling tick's clock — instead of the
accumulator time `nextStepTime`, so the triggers land at 0, 0.425, 0.925
and 1.425 s, not at the claimed 0, 0.5, 1.0 and 1.5 s. -/
theorem fourOnFloor_kick_trigger_times :
    fourOnFloorRun.map (fun e => e.synthType) = ["kick", "kick", "kick", "kick"] ∧
    fourOnFloorRun.map (fun e => e.velocity) = [100/127, 100/127, 100/127, 100/127] ∧
    fourOnFloorRun.map (fun e => e.time) = [0, 17/40, 37/40, 57/40] ∧
    ¬ fourOnFloorRun.map (fun e => e.time) = [0, 1/2, 1, 3/2] := by
  decide

/-- C2: evaluation of the accumulator on the spec's swing scenario
(bpm 120, swing 0.6, `secondsPerStep = 1/8`).  `nextStep` adds the swing
offset while advancing *away from* an odd step, so odd step 1 is
scheduled at its unswung time 1/8 (the claim requires 1/8 + 3/80) and
even step 2 is moved to 23/80 (the claim requires it unaffected at 1/4). -/
theorem swing_accumulator_times :
    stepTimeFrom swingPattern 0 1 = 1/8 ∧
    ¬ stepTimeFrom swingPattern 0 1 = 1/8 + 1/8 * (3/5) * (1/2) ∧
    stepTimeFrom swingPattern 0 2 = 23/80 ∧
    ¬ stepTimeFrom swingPattern 0 2 = 2 * (1/8) := by
  decide

/-- C4: the per-step gates of `scheduleStep`: the solo flag scan is over
all tracks of the pattern; an inactive step never triggers; a muted track
never triggers; when some track is soloed, a non-soloed track never
triggers; and when no track is soloed, a non-muted track with an active
step reaches the probability gate and triggers when the draw allows. -/
theorem step_gating_mute_solo (initialized : Bool) (p : Pattern) (track : Track)
    (step : Nat) (now : ℚ) (rand : Nat → ℚ) (k : Nat) :
    Sequencer.scheduleStep initialized p step now rand k
      = scheduleTracks initialized (p.tracks.any (fun t => t.solo)) p.tracks step now rand k ∧
    (((track.steps.get? step).getD inactiveStep).active = false →
      scheduleTrack initialized (p.tracks.any (fun t => t.solo)) track step now rand k
        = (none, k)) ∧
    (track.mute = true →
      scheduleTrack initialized (p.tracks.any (fun t => t.solo)) track step now rand k
        = (none, k)) ∧
    (p.tracks.any (fun t => t.solo) = true → track.solo = false →
      scheduleTrack initialized (p.tracks.any (fun t => t.solo)) track step now rand k
        = (none, k)) ∧
    (p.tracks.any (fun t => t.solo) = false → track.mute = false →
      ((track.steps.get? step).getD inactiveStep).active = true →
      ¬ rand k > ((track.steps.get? step).getD inactiveStep).probability →
      scheduleTrack initialized (p.tracks.any (fun t => t.solo)) track step now rand k
        = (AudioEngine.triggerDrum initialized now track.synthType
            (((track.steps.get? step).getD inactiveStep).velocity * track.volume)
            (jsMerge track.synthParams
              ((((track.steps.get? step).getD inactiveStep).parameters).getD [])),
           k + 1)) := by
  refine ⟨rfl, ?_, ?_, ?_, ?_⟩
  · intro h
    unfold scheduleTrack
    rw [if_pos h]
  · intro h
    unfold scheduleTrack
    by_cases ha : ((track.steps.get? step).getD inactiveStep).active = false
    · rw [if_pos ha]
    · rw [if_neg ha, if_pos h]
  · intro hs hsolo
    unfold scheduleTrack
    by_cases ha : ((track.steps.get? step).getD inactiveStep).active = false
    · rw [if_pos ha]
    · rw [if_neg ha]
      by_cases hm : track.mute = true
      · rw [if_pos hm]
      · rw [if_neg hm, if_pos ⟨hs, hsolo⟩]
  · intro hs hm ha hprob
    unfold scheduleTrack
    rw [if_neg (by rw [ha]; exact fun hh => Bool.noConfusion hh),
        if_neg (by rw [hm]; exact fun hh => Bool.noConfusion hh),
        if_neg (fun hand => by rw [hs] at hand; exact Bool.noConfusion hand.1),
        if_neg hprob]

/-- C5 counterexample: `Math.random()` draws uniformly from [0,1) and can
return exactly 0; at the draw 0 an eligible (active, unmuted, unsoloed)
step with probability 0 still triggers, because the gate skips only when
`draw > probability`.  This refutes "probability 0 never triggers" as a
statement over every draw in [0,1). -/
theorem probability_zero_triggers_on_zero_draw :
    ((0:ℚ) ≤ 0 ∧ (0:ℚ) < 1) ∧
    (scheduleTrack true false ⟨"kick", 1, false, false, [⟨true, 100, 0, 0, none⟩], []⟩
        0 0 (fun _ => 0) 0).1
      = some ⟨"kick", 0, 100/127, []⟩ := by
  decide

/-- C5 (amended): for an eligible (active, unmuted, not solo-excluded)
step the probability gate is `draw > probability`: with probability 0 the
step never triggers for any draw in (0,1) — a draw of exactly 0 is the
one draw in [0,1) that still triggers it — and with probability 1 it
always triggers, for every draw in [0,1). -/
theorem probability_boundary_amended (initialized hasSolo : Bool) (track : Track)
    (step : Nat) (now : ℚ) (rand : Nat → ℚ) (k : Nat)
    (hactive : ((track.steps.get? step).getD inactiveStep).active = true)
    (hmute : track.mute = false)
    (hsolo : ¬(hasSolo = true ∧ track.solo = false)) :
    (((track.steps.get? step).getD inactiveStep).probability = 0 → 0 < rand k →
      scheduleTrack initialized hasSolo track step now rand k = (none, k + 1)) ∧
    (((track.steps.get? step).getD inactiveStep).probability = 1 → rand k < 1 →
      scheduleTrack initialized hasSolo track step now rand k
        = (AudioEngine.triggerDrum initialized now track.synthType
            (((track.steps.get? step).getD inactiveStep).velocity * track.volume)
            (jsMerge track.synthParams
              ((((track.steps.get? step).getD inactiveStep).parameters).getD [])),
           k + 1)) := by
  constructor
  · intro hp hr
    unfold scheduleTrack
    rw [if_neg (by rw [hactive]; exact fun hh => Bool.noConfusion hh),
        if_neg (by rw [hmute]; exact fun hh => Bool.noConfusion hh), if_neg hsolo,
        if_pos (by rw [hp]; exact hr)]
  · intro hp hr
    unfold scheduleTrack
    rw [if_neg (by rw [hactive]; exact fun hh => Bool.noConfusion hh),
        if_neg (by rw [hmute]; exact fun hh => Bool.noConfusion hh), if_neg hsolo,
        if_neg (by rw [hp]; exact not_lt.mpr hr.le)]

/-- C6: whenever the per-track loop dispatches a trigger, the velocity
value the synth engine's `trigger` receives equals
`stepVelocity / 127 * trackVolume` — the sequencer multiplies step
velocity by track volume and `triggerDrum` divides by 127 before the
engine applies any of its own gain scaling. -/
theorem engine_velocity_composition (initialized hasSolo : Bool) (track : Track)
    (step : Nat) (now : ℚ) (rand : Nat → ℚ) (k : Nat) (ev : TriggerEvent)
    (h : (scheduleTrack initialized hasSolo track step now rand k).1 = some ev) :
    ev.velocity
      = ((track.steps.get? step).getD inactiveStep).velocity / 127 * track.volume := by
  rw [scheduleTrack_some initialized hasSolo track step now rand k ev h]
  show (((track.steps.get? step).getD inactiveStep).velocity * track.volume) / 127
      = ((track.steps.get? step).getD inactiveStep).velocity / 127 * track.volume
  ring

/-- C7: `Sequencer.stop` is idempotent (its guard makes a second call a
no-op), a stopped sequencer reports `isPlaying = false`, stopping from
playback clears the cursor and the timer, and a voice's `stop` applied
twice leaves the engine's voice set exactly as one call (the set delete
is idempotent and the node double-stop is absorbed by the try/catch,
which is why the embedded functions are total). -/
theorem stop_idempotent (s : Sequencer) (vs : List DrumVoice) (v : DrumVoice) :
    Sequencer.stop (Sequencer.stop s) = Sequencer.stop s ∧
    (Sequencer.stop s).isPlaying = false ∧
    (s.isPlaying = true →
      (Sequencer.stop s).currentStep = 0 ∧ (Sequencer.stop s).timerID = none) ∧
    KickSynth.voiceStop (KickSynth.voiceStop vs v) v = KickSynth.voiceStop vs v := by
  refine ⟨?_, ?_, ?_, ?_⟩
  · unfold Sequencer.stop
    by_cases h : s.isPlaying = false
    · rw [if_pos h, if_pos h]
    · rw [if_neg h, if_pos rfl]
  · unfold Sequencer.stop
    by_cases h : s.isPlaying = false
    · rw [if_pos h]
      exact h
    · rw [if_neg h]
  · intro h
    unfold Sequencer.stop
    rw [if_neg (by rw [h]; exact fun hh => Bool.noConfusion hh)]
    exact ⟨rfl, rfl⟩
  · unfold KickSynth.voiceStop
    rw [List.filter_filter]
    congr 1
    funext w
    rw [Bool.and_self]

theorem start_init_run (s : Sequencer) (p : Pattern) (cb : Option Nat) (now : ℚ)
    (rand : Nat → ℚ) (fuel : Nat) (tid : Nat) (h : s.isPlaying = false) :
    Sequencer.start true s p cb now rand fuel tid
      = (let r := Sequencer.schedule true now rand fuel (s.startInit p cb now) 0
         ({ r.1 with timerID := some tid }, r.2.1)) := by
  unfold Sequencer.start
  rw [if_neg (by rw [h]; exact fun hh => Bool.noConfusion hh), if_neg (by simp)]

/-- C8: calling `start` from a stopped sequencer with the audio engine
uninitialized is a logged no-op — the state is returned unchanged (so
`getIsPlaying` stays false and no timer is installed); with the engine
initialized, `start` enters the Running state with the step cursor at 0
and the accumulator set to the current clock time, runs one scheduling
pass, and installs the interval timer. -/
theorem start_requires_initialization (s : Sequencer) (p : Pattern) (cb : Option Nat)
    (now : ℚ) (rand : Nat → ℚ) (fuel : Nat) (tid : Nat)
    (hstopped : s.isPlaying = false) :
    Sequencer.start false s p cb now rand fuel tid = (s, []) ∧
    (Sequencer.start false s p cb now rand fuel tid).1.getIsPlaying = false ∧
    (Sequencer.start true s p cb now rand fuel tid).1.isPlaying = true ∧
    (Sequencer.start true s p cb now rand fuel tid).1.timerID = some tid ∧
    (s.startInit p cb now).currentStep = 0 ∧
    (s.startInit p cb now).nextStepTime = now ∧
    (s.startInit p cb now).pattern = some p ∧
    (s.startInit p cb now).isPlaying = true := by
  have hfail : Sequencer.start false s p cb now rand fuel tid = (s, []) := by
    unfold Sequencer.start
    rw [if_neg (by rw [hstopped]; exact fun hh => Bool.noConfusion hh), if_pos rfl]
  have hframe := schedule_frame true now rand fuel (s.startInit p cb now) 0
  refine ⟨hfail, ?_, ?_, ?_, rfl, rfl, rfl, rfl⟩
  · rw [hfail]
    exact hstopped
  · rw [start_init_run s p cb now rand fuel tid hstopped]
    exact hframe.1
  · rw [start_init_run s p cb now rand fuel tid hstopped]

/-- C9: a triggered step's parameter mapping is the key-by-key merge of
the track's `synthParams` with the step's overrides (override wins where
present, track default otherwise); a step without overrides passes the
track defaults through unchanged; and a scheduling pass never modifies
the sequencer's pattern reference — the merge builds a fresh object, so
the track's persistent `synthParams` are untouched. -/
theorem step_param_override_isolation (initialized hasSolo : Bool) (track : Track)
    (step : Nat) (now : ℚ) (rand : Nat → ℚ) (k : Nat) (ev : TriggerEvent)
    (h : (scheduleTrack initialized hasSolo track step now rand k).1 = some ev) :
    (∀ key, lookupAssoc ev.params key
        = (lookupAssoc ((((track.steps.get? step).getD inactiveStep).parameters).getD []) key).orElse
            (fun _ => lookupAssoc track.synthParams key)) ∧
    ((((track.steps.get? step).getD inactiveStep).parameters) = none →
      ev.params = track.synthParams) ∧
    (∀ (s : Sequencer) (now' : ℚ) (fuel k' : Nat),
      (Sequencer.schedule initialized now' rand fuel s k').1.pattern = s.pattern) := by
  refine ⟨?_, ?_, ?_⟩
  · intro key
    rw [scheduleTrack_some initialized hasSolo track step now rand k ev h]
    exact lookupAssoc_jsMerge _ _ key
  · intro hnone
    rw [scheduleTrack_some initialized hasSolo track step now rand k ev h]
    show jsMerge track.synthParams
        ((((track.steps.get? step).getD inactiveStep).parameters).getD []) = track.synthParams
    rw [hnone]
    exact jsMerge_nil _
  · intro s now' fuel k'
    exact (schedule_frame initialized now' rand fuel s k').2.2.1

/-- C10: calling `start` while the sequencer is already playing returns
before touching any state: the pattern reference, the stored callback,
the step cursor, the accumulator and the timer are all unchanged and no
trigger is dispatched — the new pattern argument is discarded, unlike
`updatePattern`, which swaps the pattern reference in place. -/
theorem start_noop_while_playing (initialized : Bool) (s : Sequencer)
    (p p₂ : Pattern) (cb : Option Nat) (now : ℚ) (rand : Nat → ℚ)
    (fuel : Nat) (tid : Nat) (h : s.isPlaying = true) :
    Sequencer.start initialized s p cb now rand fuel tid = (s, []) ∧
    Sequencer.updatePattern s p₂ = { s with pattern := some p₂ } := by
  constructor
  · unfold Sequencer.start
    rw [if_pos h]
  · rfl

/-- A soloed snare track, for exercising the solo gate. -/
def soloTrack : Track := ⟨"snare", 1, false, true, [⟨true, 100, 1, 0, none⟩], []⟩

/-- A plain kick track (no mute, no solo), active on its single step. -/
def plainTrack : Track := ⟨"kick", 1, false, false, [⟨true, 100, 1, 0, none⟩], []⟩

/-- A two-track pattern in which one track is soloed. -/
def soloPattern : Pattern := ⟨120, 0, [soloTrack, plainTrack], 16⟩

/-- A kick track whose single step has probability 0. -/
def probZeroTrack : Track := ⟨"kick", 1, false, false, [⟨true, 100, 0, 0, none⟩], []⟩

/-- A kick track whose single step carries a per-step pitch override. -/
def overrideTrack : Track :=
  ⟨"kick", 1, false, false, [⟨true, 100, 1, 0, some [("pitch", 999)]⟩],
   [("pitch", 60), ("decay", 1/2)]⟩

theorem hihat_choke_group_exclusivity_witness :
    (HiHatSynth.trigger ⟨[⟨0, 0, 0, 1/10⟩], [(0, ⟨0, 0, 0, 1/10⟩)], hihatDefaults, 1⟩
        2 1 []).2 = [⟨0, 0, 2⟩] ∧
    (⟨0, 0, 0, 1/10⟩ : DrumVoice) ∉
      (HiHatSynth.trigger ⟨[⟨0, 0, 0, 1/10⟩], [(0, ⟨0, 0, 0, 1/10⟩)], hihatDefaults, 1⟩
          2 1 []).1.voices :=
  (hihat_choke_group_exclusivity
      ⟨[⟨0, 0, 0, 1/10⟩], [(0, ⟨0, 0, 0, 1/10⟩)], hihatDefaults, 1⟩ 2 1 []
      (by decide)).2.1 ⟨0, 0, 0, 1/10⟩ (by decide)

theorem step_gating_mute_solo_witness :
    soloPattern.tracks.any (fun t => t.solo) = true ∧
    plainTrack.solo = false ∧
    scheduleTrack true (soloPattern.tracks.any (fun t => t.solo)) plainTrack
        0 0 (fun _ => 0) 0 = (none, 0) :=
  ⟨by decide, by decide,
   (step_gating_mute_solo true soloPattern plainTrack 0 0 (fun _ => 0) 0).2.2.2.1
     (by decide) (by decide)⟩

theorem probability_boundary_amended_witness :
    scheduleTrack true false probZeroTrack 0 0 (fun _ => 1/2) 0 = (none, 0 + 1) :=
  (probability_boundary_amended true false probZeroTrack 0 0 (fun _ => 1/2) 0
      (by decide) (by decide) (by decide)).1 (by decide) (by decide)

theorem engine_velocity_composition_witness :
    (⟨"kick", 0, 100/127, []⟩ : TriggerEvent).velocity
      = ((kickTrack.steps.get? 0).getD inactiveStep).velocity / 127 * kickTrack.volume :=
  engine_velocity_composition true false kickTrack 0 0 (fun _ => 0) 0
    ⟨"kick", 0, 100/127, []⟩ (by decide)

theorem stop_idempotent_witness :
    Sequencer.stop (Sequencer.stop ⟨true, 5, 2, some 3, none, none⟩)
      = Sequencer.stop ⟨true, 5, 2, some 3, none, none⟩ ∧
    (Sequencer.stop ⟨true, 5, 2, some 3, none, none⟩).currentStep = 0 ∧
    (Sequencer.stop ⟨true, 5, 2, some 3, none, none⟩).timerID = none :=
  ⟨(stop_idempotent ⟨true, 5, 2, some 3, none, none⟩ [] ⟨0, 0, 0, 0⟩).1,
   ((stop_idempotent ⟨true, 5, 2, some 3, none, none⟩ [] ⟨0, 0, 0, 0⟩).2.2.1 rfl).1,
   ((stop_idempotent ⟨true, 5, 2, some 3, none, none⟩ [] ⟨0, 0, 0, 0⟩).2.2.1 rfl).2⟩

theorem start_requires_initialization_witness :
    Sequencer.start false Sequencer.init fourOnFloor none 0 (fun _ => 0) 1 7
      = (Sequencer.init, []) ∧
    (Sequencer.start true Sequencer.init fourOnFloor none 0 (fun _ => 0) 1 7).1.isPlaying
      = true :=
  ⟨(start_requires_initialization Sequencer.init fourOnFloor none 0 (fun _ => 0) 1 7
      (by decide)).1,
   (start_requires_initialization Sequencer.init fourOnFloor none 0 (fun _ => 0) 1 7
      (by decide)).2.2.1⟩

theorem step_param_override_isolation_witness :
    lookupAssoc ((⟨"kick", 0, 100/127, [("decay", 1/2), ("pitch", 999)]⟩
        : TriggerEvent).params) "pitch"
      = (lookupAssoc ((((overrideTrack.steps.get? 0).getD inactiveStep).parameters).getD [])
            "pitch").orElse
          (fun _ => lookupAssoc overrideTrack.synthParams "pitch") :=
  (step_param_override_isolation true false overrideTrack 0 0 (fun _ => 0) 0
      ⟨"kick", 0, 100/127, [("decay", 1/2), ("pitch", 999)]⟩ (by decide)).1 "pitch"

theorem start_noop_while_playing_witness :
    Sequencer.start true ⟨true, 3, 1, some 5, some fourOnFloor, some 2⟩ swingPattern
        none 9 (fun _ => 0) 4 8
      = (⟨true, 3, 1, some 5, some fourOnFloor, some 2⟩, []) :=
  (start_noop_while_playing true ⟨true, 3, 1, some 5, some fourOnFloor, some 2⟩
      swingPattern swingPattern none 9 (fun _ => 0) 4 8 (by decide)).1
